import Mathlib

/-!
Verification of the CalmBot intent-routing engine (ai_calmbot.py).

The Python source is shallowly embedded below. Strings are modelled as
Lean strings (lists of characters); the ASCII fragments of the Python
text functions (str.lower, str.strip, the \s and \w regex classes,
str.capitalize) are embedded at the ASCII level, which covers every
string occurring in the program and in the properties under test.
Python re.sub, re.search with the two concrete patterns of the source
(all risk patterns are regex-literal strings, and the name-capture
pattern is embedded by a dedicated scanner with the same semantics)
are embedded as executable functions. The interactive loop (chat_loop)
is out of scope, as is time.sleep, which only delays output and does
not affect any returned value.
-/

set_option maxRecDepth 20000

namespace CalmBot

/-- The apostrophe character, kept out of string literals. -/
def apc : Char := Char.ofNat 39

/-- The apostrophe as a one-character string. -/
def ap : String := String.mk [apc]

/-- Python \s on ASCII: space, tab, newline, vertical tab, form feed,
carriage return. -/
def isWs (c : Char) : Bool :=
  decide (c.toNat = 32 ∨ c.toNat = 9 ∨ c.toNat = 10 ∨ c.toNat = 11 ∨
          c.toNat = 12 ∨ c.toNat = 13)

/-- ASCII lower-casing of one character, as done by str.lower. -/
def lowerChar (c : Char) : Char :=
  if h : 65 ≤ c.toNat ∧ c.toNat ≤ 90 then
    Char.ofNatAux (c.toNat + 32) (Or.inl (by omega))
  else c

/-- ASCII upper-casing of one character, as done by str.capitalize on
the first character. -/
def upperChar (c : Char) : Char :=
  if h : 97 ≤ c.toNat ∧ c.toNat ≤ 122 then
    Char.ofNatAux (c.toNat - 32) (Or.inl (by omega))
  else c

/-- str.strip on the front: drop leading whitespace. -/
def dropWs (l : List Char) : List Char := l.dropWhile isWs

/-- str.strip: drop leading and trailing whitespace. -/
def stripWs (l : List Char) : List Char :=
  ((dropWs l).reverse.dropWhile isWs).reverse

/-- The replacement loop of re.sub with pattern \s+ and replacement
a single space: every maximal nonempty whitespace run becomes one
space. The flag records whether the previous character was part of a
whitespace run already replaced. -/
def collapseAux : Bool → List Char → List Char
  | _, [] => []
  | b, c :: cs =>
    if isWs c then
      if b then collapseAux true cs else ' ' :: collapseAux true cs
    else c :: collapseAux false cs

/-- normalize from the source: re.sub of \s+ by one space applied to
text.strip().lower(). -/
def normalize (text : String) : String :=
  String.mk (collapseAux false ((stripWs text.data).map lowerChar))

/-- Does the pattern occur at the head of the text? -/
def startsList : List Char → List Char → Bool
  | [], _ => true
  | _ :: _, [] => false
  | p :: ps, c :: cs => p = c && startsList ps cs

/-- Python substring containment, the `in` operator on str: the pattern
occurs contiguously somewhere in the text. -/
def containsList (pat : List Char) : List Char → Bool
  | [] => pat.isEmpty
  | c :: cs => startsList pat (c :: cs) || containsList pat cs

/-- contains_any from the source: any(w in text for w in words). -/
def contains_any (text : String) (words : List String) : Bool :=
  words.any (fun w => containsList w.data text.data)

/-- RISKY_PATTERNS from the source. Each pattern is a regex in which
every character is literal, so re.search is substring containment. -/
def RISKY_PATTERNS : List String :=
  ["kill myself", "suicide", "end my life", "self-harm", "cut myself",
   "can" ++ ap ++ "t go on", "no reason to live", "hurt myself"]

/-- safety_check from the source: normalize, then search each risky
pattern. -/
def safety_check (text : String) : Bool :=
  RISKY_PATTERNS.any (fun p => containsList p.data (normalize text).data)

/-- SAFETY_MESSAGE from the source. -/
def SAFETY_MESSAGE : String :=
  "I" ++ ap ++ "m really glad you told me. You deserve support right now.\n" ++
  "• If you" ++ ap ++ "re in immediate danger or thinking about hurting yourself: please contact local emergency services, or reach out to someone you trust nearby.\n" ++
  "• Consider contacting a mental-health professional or your campus counseling service.\n" ++
  "• If available, call a national crisis helpline in your country. You" ++ ap ++ "re not alone.\n" ++
  "We can also keep talking. Would you like a grounding exercise or just to vent?"

/-- The four step labels of one box-breathing cycle. -/
def boxSteps : List String := ["Inhale", "Hold", "Exhale", "Hold"]

/-- box_breathing from the source. The realtime flag only inserts
time.sleep calls between appends and never changes the returned
string, so it is carried but unused. -/
def box_breathing (cycles : Nat) (seconds : Nat) (_realtime : Bool) : String :=
  let header := "Let" ++ ap ++ "s try box breathing (4 steps). We" ++ ap ++
    "ll do " ++ toString cycles ++ " cycles."
  let cycleLines := (List.range cycles).map (fun i =>
    ("Cycle " ++ toString (i + 1) ++ ":") ::
      boxSteps.map (fun st => "  " ++ st ++ " for " ++ toString seconds ++ "…"))
  let footer := "Nice work. Notice any change in your body right now?"
  String.intercalate ("\n") (header :: cycleLines.flatten ++ [footer])

/-- four_seven_eight from the source; realtime as in box_breathing. -/
def four_seven_eight (cycles : Nat) (_realtime : Bool) : String :=
  let header := "We" ++ ap ++ "ll try the 4–7–8 breath. We" ++ ap ++ "ll do " ++
    toString cycles ++ " cycles."
  let cycleLines := (List.range cycles).map (fun i =>
    [("Cycle " ++ toString (i + 1) ++ ":"),
     "  Inhale through your nose for 4…",
     "  Hold for 7…",
     "  Exhale slowly through your mouth for 8…"])
  let footer := "Great. Unclench your jaw and drop your shoulders."
  String.intercalate ("\n") (header :: cycleLines.flatten ++ [footer])

/-- grounding_54321 from the source. -/
def grounding_54321 : String :=
  "Let" ++ ap ++ "s do the 5-4-3-2-1 grounding exercise:\n" ++
  "  • Name 5 things you can see\n" ++
  "  • 4 things you can feel (chair, clothes, air)\n" ++
  "  • 3 things you can hear\n" ++
  "  • 2 things you can smell\n" ++
  "  • 1 thing you can taste or a slow sip of water\n" ++
  "Type a few of yours here—I" ++ ap ++ "ll listen."

/-- mini_journal_prompt from the source. -/
def mini_journal_prompt : String :=
  "Mini-journal (2 mins):\n" ++
  "  1) What happened?\n" ++
  "  2) What am I feeling (name it)?\n" ++
  "  3) What do I need right now?\n" ++
  "  4) One tiny next step?"

/-- The per-session context of the source dataclass Context. -/
structure Context where
  name : Option String
  last_topics : List String
deriving DecidableEq, Repr

/-- A handler result: (intent tag, message). -/
abbrev Response := String × String

/-- Handler _handle_greeting. -/
def handle_greeting (_t : String) : Response :=
  ("greet",
   "Hi, I" ++ ap ++ "m CalmBot. I" ++ ap ++ "m here to listen.\n" ++
   "You can type what" ++ ap ++ "s on your mind, or say " ++ ap ++ "breathe" ++
   ap ++ ", " ++ ap ++ "ground" ++ ap ++ ", or " ++ ap ++ "journal" ++ ap ++ ".")

/-- Handler _handle_stress. -/
def handle_stress (_t : String) : Response :=
  ("stress",
   "That sounds heavy. Let" ++ ap ++ "s slow things down.\n" ++
   box_breathing 2 4 false ++
   "\nIf you" ++ ap ++ "d rather, we can try grounding—type " ++ ap ++
   "ground" ++ ap ++ ".")

/-- Handler _handle_anger. -/
def handle_anger (_t : String) : Response :=
  ("anger",
   "I hear a lot of energy there. Two quick options:\n" ++
   "• 60-second breath (type " ++ ap ++ "breathe" ++ ap ++ ")\n" ++
   "• Write the unfiltered thought, then a kinder reframe starting with " ++
   ap ++ "A more helpful way to see this might be…" ++ ap)

/-- Handler _handle_sleep. -/
def handle_sleep (_t : String) : Response :=
  ("sleep",
   "Sleep can be tough when the mind is busy.\n" ++
   four_seven_eight 2 false ++
   "\nTip: keep lights dim, put the phone face down after this.")

/-- Handler _handle_grounding. -/
def handle_grounding (_t : String) : Response := ("grounding", grounding_54321)

/-- Handler _handle_breathing. -/
def handle_breathing (_t : String) : Response :=
  ("breathing", box_breathing 3 4 false)

/-- Handler _handle_journal. -/
def handle_journal (_t : String) : Response := ("journal", mini_journal_prompt)

/-- Handler _handle_help. -/
def handle_help (_t : String) : Response :=
  ("help",
   "Commands: " ++ ap ++ "breathe" ++ ap ++ ", " ++ ap ++ "ground" ++ ap ++
   ", " ++ ap ++ "journal" ++ ap ++ ", or tell me how you" ++ ap ++
   "re feeling. Type " ++ ap ++ "quit" ++ ap ++ " to exit.")

/-- One routing rule: (keywords, handler). -/
abbrev Rule := List String × (String → Response)

/-- The ordered rule table built in CalmBot.__init__. -/
def handlers : List Rule :=
  [(["hi", "hello", "hey", "good morning", "good evening"], handle_greeting),
   (["panic", "anxious", "anxiety", "overwhelmed", "stressed", "stress"], handle_stress),
   (["angry", "frustrated", "mad", "irritated"], handle_anger),
   (["can" ++ ap ++ "t sleep", "insomnia", "sleep"], handle_sleep),
   (["ground", "54321", "focus"], handle_grounding),
   (["breathe", "breathing", "box", "4-7-8", "478"], handle_breathing),
   (["journal", "write", "thoughts"], handle_journal),
   (["help", "commands", "menu"], handle_help)]

/-- The for loop over handlers in reply: first rule with a keyword hit. -/
def route (t : String) : Option Rule :=
  handlers.find? (fun p => contains_any t p.1)

/-- Python \w on ASCII: letters, digits, underscore. -/
def isWordChar (c : Char) : Bool :=
  decide ((97 ≤ c.toNat ∧ c.toNat ≤ 122) ∨ (65 ≤ c.toNat ∧ c.toNat ≤ 90) ∨
          (48 ≤ c.toNat ∧ c.toNat ≤ 57) ∨ c.toNat = 95)

/-- The regex class [a-zA-Z]. -/
def isAsciiAlpha (c : Char) : Bool :=
  decide ((97 ≤ c.toNat ∧ c.toNat ≤ 122) ∨ (65 ≤ c.toNat ∧ c.toNat ≤ 90))

/-- Match a literal character sequence at the head of the text and
return the rest. -/
def dropLit : List Char → List Char → Option (List Char)
  | [], rest => some rest
  | _ :: _, [] => none
  | p :: ps, c :: cs => if p = c then dropLit ps cs else none

/-- The \s+ part of the name pattern: consume one or more whitespace
characters greedily (backtracking to fewer can never help, because the
next pattern atom [a-zA-Z] rejects whitespace). -/
def afterWs : List Char → Option (List Char)
  | [] => none
  | c :: cs => if isWs c then some (cs.dropWhile isWs) else none

/-- The trailing \b of the name pattern: the previous character is a
word character, so the next one must not be (or the text ends). -/
def boundaryAfter : List Char → Bool
  | [] => true
  | c :: _ => !(isWordChar c)

/-- The ([a-zA-Z]\x7b2,\x7d)\b part of the name pattern: a maximal
alphabetic run of length at least two whose successor is not a word
character. Backtracking to a shorter run can never satisfy the \b,
because every proper nonempty cut falls between two letters. -/
def nameWord (s : List Char) : Option (List Char) :=
  let run := s.takeWhile isAsciiAlpha
  let rest := s.dropWhile isAsciiAlpha
  if 2 ≤ run.length && boundaryAfter rest then some run else none

/-- Try the full name pattern at one position: leading \b (the matched
text starts with the word character i, so the previous character must
not be a word character), then the alternation (i am|i m with an
apostrophe), then \s+ and the captured word. The two alternatives
differ at their second character, so at most one literal matches. -/
def matchNameAt (prevIsWord : Bool) (s : List Char) : Option (List Char) :=
  if prevIsWord then none
  else
    match (dropLit ['i', ' ', 'a', 'm'] s).bind
            (fun r => (afterWs r).bind nameWord) with
    | some w => some w
    | none =>
      (dropLit ['i', apc, 'm'] s).bind (fun r => (afterWs r).bind nameWord)

/-- re.search: scan positions left to right, returning the first
position at which the whole pattern matches; the capture is group 2. -/
def findNameScan (prevIsWord : Bool) : List Char → Option (List Char)
  | [] => none
  | c :: cs =>
    match matchNameAt prevIsWord (c :: cs) with
    | some w => some w
    | none => findNameScan (isWordChar c) cs

/-- The name-capture search of reply, on the normalized text. -/
def name_capture (t : String) : Option (List Char) :=
  findNameScan false t.data

/-- str.capitalize: first character upper-cased, the rest lower-cased. -/
def pyCapitalize : List Char → String
  | [] => String.mk []
  | c :: cs => String.mk (upperChar c :: cs.map lowerChar)

/-- The fixed default fallback message of reply. -/
def default_msg : String :=
  "Thanks for sharing. I" ++ ap ++ "m here with you. Would you like to try " ++
  ap ++ "ground" ++ ap ++ " or " ++ ap ++ "breathe" ++ ap ++
  ", or tell me more?"

/-- CalmBot._prefix_name. -/
def prefix_name (ctx : Context) (message : String) : String :=
  match ctx.name with
  | some n => n ++ ", " ++ message
  | none => message

/-- CalmBot.reply, with the mutable self.ctx made explicit: the call
returns the reply text together with the updated context. -/
def reply (ctx : Context) (user_text : String) : String × Context :=
  if safety_check user_text then (SAFETY_MESSAGE, ctx)
  else
    let t := normalize user_text
    let ctx1 :=
      match name_capture t with
      | some w => { ctx with name := some (pyCapitalize w) }
      | none => ctx
    match route t with
    | some kh =>
      let im := kh.2 t
      let ctx2 := { ctx1 with last_topics := ctx1.last_topics ++ [im.1] }
      (prefix_name ctx2 im.2, ctx2)
    | none => (prefix_name ctx1 default_msg, ctx1)

/-- The empty session context built in CalmBot.__init__. -/
def freshCtx : Context := { name := none, last_topics := [] }

/-- The first rule of the table, named for instantiating the routing
order theorem. -/
def greetRule : Rule :=
  (["hi", "hello", "hey", "good morning", "good evening"], handle_greeting)

/-- Number of positions of the text at which the pattern occurs. -/
def countOccs (pat : List Char) : List Char → Nat
  | [] => 0
  | c :: cs => (if startsList pat (c :: cs) then 1 else 0) + countOccs pat cs

/-- Split a character list at newline characters, like str.split on a
single newline: one group per line. -/
def splitNl : List Char → List (List Char)
  | [] => [[]]
  | c :: cs =>
    if c = '\n' then [] :: splitNl cs
    else
      match splitNl cs with
      | [] => [[c]]
      | g :: gs => (c :: g) :: gs

/-- The head of the list, if any, is not whitespace. -/
def noLeadWs : List Char → Bool
  | [] => true
  | c :: _ => !(isWs c)

/-- The last element of the list, if any, is not whitespace. -/
def noTrailWs : List Char → Bool
  | [] => true
  | [c] => !(isWs c)
  | _ :: c :: cs => noTrailWs (c :: cs)

/-- The list is a fixed point of collapseAux with the given flag:
every whitespace character in it is a single space not preceded by
whitespace (with the flag standing for whitespace just before the
list). -/
def collapsed : Bool → List Char → Bool
  | _, [] => true
  | b, c :: cs => if isWs c then !b && (c == ' ') && collapsed true cs else collapsed false cs

/-! Helper lemmas. -/

theorem startsList_append_self (l m : List Char) : startsList l (l ++ m) = true := by
  induction l with
  | nil => rfl
  | cons c cs ih => simp [startsList, List.cons_append, ih]

theorem find_first_hit {α : Type} (p : α → Bool) :
    ∀ (l : List α) (i : Nat) (r : α), l[i]? = some r → p r = true →
      (∀ j, j < i → ∀ q, l[j]? = some q → p q = false) →
      l.find? p = some r := by
  intro l
  induction l with
  | nil => intro i r hget _ _; simp at hget
  | cons a as ih =>
    intro i r hget hr hmin
    cases i with
    | zero =>
      simp at hget
      subst hget
      simp [List.find?, hr]
    | succ i =>
      have ha : p a = false := hmin 0 (Nat.succ_pos i) a (by simp)
      simp at hget
      simp [List.find?, ha]
      exact ih i r hget hr
        (fun j hj q hq => hmin (j + 1) (Nat.succ_lt_succ hj) q (by simpa using hq))

theorem dropWhile_eq_nil_of_all {p : Char → Bool} :
    ∀ l : List Char, (∀ x ∈ l, p x = true) → l.dropWhile p = [] := by
  intro l
  induction l with
  | nil => intro _; rfl
  | cons c cs ih =>
    intro h
    simp [List.dropWhile_cons, h c (by simp), ih (fun x hx => h x (by simp [hx]))]

theorem normalize_of_all_ws (s : String) (h : s.data.all isWs = true) :
    normalize s = String.mk [] := by
  have h1 : dropWs s.data = [] :=
    dropWhile_eq_nil_of_all s.data (by simpa using h)
  have h2 : stripWs s.data = [] := by simp [stripWs, h1]
  simp [normalize, h2]
  rfl

theorem startsList_append_string (a m : String) :
    startsList a.data ((a ++ m)).data = true := by
  show startsList a.data (a.data ++ m.data) = true
  exact startsList_append_self a.data m.data

/-! Claim theorems. -/

/-- C2: for every input whose normalization contains one of the risk
phrases, reply returns exactly SAFETY_MESSAGE and leaves the session
context entirely unchanged (no handler runs, nothing is appended to
the topic history, and no name is captured on that turn). -/
theorem C2_safety_short_circuit (ctx : Context) (s : String)
    (h : ∃ p ∈ RISKY_PATTERNS, containsList p.data (normalize s).data = true) :
    reply ctx s = (SAFETY_MESSAGE, ctx) := by
  have hs : safety_check s = true := by
    rcases h with ⟨p, hp, hc⟩
    exact List.any_eq_true.mpr ⟨p, hp, hc⟩
  simp [reply, hs]

theorem C2_safety_short_circuit_witness :
    (∃ p ∈ RISKY_PATTERNS,
       containsList p.data
         (normalize ("hello friend, i  CAN" ++ ap ++ "T GO ON")).data = true) ∧
    reply freshCtx ("hello friend, i  CAN" ++ ap ++ "T GO ON") =
      (SAFETY_MESSAGE, freshCtx) :=
  ⟨by decide, C2_safety_short_circuit freshCtx _ (by decide)⟩

/-- C1 counterexample: on a non-safety turn that matches no rule, the
default fallback fires and appends nothing: the topic history of a
fresh session does not grow to length one. -/
theorem C1_counterexample :
    ¬ ((reply freshCtx ("purple elephants dance")).2.last_topics.length =
       freshCtx.last_topics.length + 1) := by decide

/-- C1 (amended): on a non-safety turn, if some rule matches then
exactly one intent tag, the tag returned by that rule, is appended to
the topic history; if no rule matches, the default fallback fires and
the topic history is unchanged (no "default" tag is recorded). -/
theorem C1_topic_history_growth (ctx : Context) (s : String)
    (h : safety_check s = false) :
    (∃ kh, route (normalize s) = some kh ∧
       (reply ctx s).2.last_topics =
         ctx.last_topics ++ [(kh.2 (normalize s)).1]) ∨
    (route (normalize s) = none ∧
       (reply ctx s).2.last_topics = ctx.last_topics) := by
  cases hr : route (normalize s) with
  | some kh =>
    left
    refine ⟨kh, rfl, ?_⟩
    cases hnc : name_capture (normalize s) <;> simp [reply, h, hr, hnc]
  | none =>
    right
    refine ⟨rfl, ?_⟩
    cases hnc : name_capture (normalize s) <;> simp [reply, h, hr, hnc]

theorem C1_topic_history_growth_witness :
    safety_check ("hello") = false ∧
    ((∃ kh, route (normalize ("hello")) = some kh ∧
        (reply freshCtx ("hello")).2.last_topics =
          freshCtx.last_topics ++ [(kh.2 (normalize ("hello"))).1]) ∨
     (route (normalize ("hello")) = none ∧
        (reply freshCtx ("hello")).2.last_topics = freshCtx.last_topics)) :=
  ⟨by decide, C1_topic_history_growth freshCtx ("hello") (by decide)⟩

/-- C3: the router scans the rule table in declaration order and the
first rule with a keyword hit wins, regardless of hits in later rules;
in particular the input about both greeting and panicking routes to
the greeting handler (intent tag greet), not the stress handler. -/
theorem C3_first_match_wins :
    (∀ (t : String) (i : Nat) (r : Rule), handlers[i]? = some r →
       contains_any t r.1 = true →
       (∀ j, j < i → ∀ q, handlers[j]? = some q → contains_any t q.1 = false) →
       route t = some r) ∧
    (reply freshCtx ("hello, I" ++ ap ++ "m panicking")).2.last_topics = ["greet"] ∧
    (reply freshCtx ("hello, I" ++ ap ++ "m panicking")).1 =
      "Panicking, " ++ (handle_greeting (normalize ("hello, I" ++ ap ++ "m panicking"))).2 := by
  refine ⟨?_, by decide, by decide⟩
  intro t i r hget hhit hmin
  exact find_first_hit _ handlers i r hget hhit hmin

theorem C3_first_match_wins_witness :
    contains_any (normalize ("hello, I" ++ ap ++ "m panicking")) greetRule.1 = true ∧
    route (normalize ("hello, I" ++ ap ++ "m panicking")) = some greetRule :=
  ⟨by decide,
   C3_first_match_wins.1 _ 0 greetRule rfl (by decide)
     (fun j hj => absurd hj (Nat.not_lt_zero j))⟩

/-- C5: the name captured from the first turn persists in the session
context and prefixes the next reply: after the introduction turn the
context holds the name Alex, and the following greeting turn returns a
message beginning with the characters of "Alex, ". -/
theorem C5_name_persists :
    (reply freshCtx ("I" ++ ap ++ "m Alex")).2.name = some ("Alex") ∧
    startsList ("Alex, ".data)
      ((reply (reply freshCtx ("I" ++ ap ++ "m Alex")).2 ("hello")).1).data = true := by
  decide

/-- C6: on a fresh session, input matching no rule returns exactly the
default fallback text, with no personalization prefix and an unchanged
context. -/
theorem C6_default_fallback_verbatim :
    reply freshCtx ("purple elephants dance") = (default_msg, freshCtx) := by
  decide

/-- C8: the box-breathing script for two cycles of four seconds
contains exactly two occurrences of the text Cycle and exactly eight
indented step lines, four per cycle. -/
theorem C8_box_breathing_counts :
    countOccs ("Cycle".data) (box_breathing 2 4 false).data = 2 ∧
    ((splitNl (box_breathing 2 4 false).data).countP
       (fun l => startsList ("  ".data) l)) = 8 := by
  decide

/-- C4: reply is total by construction and its value is always one of
the three designed outcomes: the fixed safety message, a matched
handler message with personalization, or the default fallback with
personalization when no rule matches. -/
theorem C4_reply_always_answers (ctx : Context) (s : String) :
    (reply ctx s).1 = SAFETY_MESSAGE ∨
    (∃ kh ∈ handlers,
       (reply ctx s).1 = prefix_name (reply ctx s).2 ((kh.2 (normalize s)).2)) ∨
    (route (normalize s) = none ∧
       (reply ctx s).1 = prefix_name (reply ctx s).2 default_msg) := by
  by_cases hs : safety_check s = true
  · left; simp [reply, hs]
  · have hs2 : safety_check s = false := by simpa using hs
    cases hr : route (normalize s) with
    | some kh =>
      right; left
      refine ⟨kh, List.mem_of_find?_eq_some hr, ?_⟩
      cases hnc : name_capture (normalize s) <;> simp [reply, hs2, hr, hnc]
    | none =>
      right; right
      refine ⟨rfl, ?_⟩
      cases hnc : name_capture (normalize s) <;> simp [reply, hs2, hr, hnc]

/-- C9: name capture is purely pattern-based: on any non-safety turn
whose normalized text matches the name pattern, the captured word
(capitalized) overwrites the session name, whatever the word means;
any later non-safety, non-capturing turn is then prefixed with that
name. Concretely, the anxious turn stores the name Anxious and both
its own response and the following greeting response begin with the
characters of "Anxious, ". -/
theorem C9_pattern_only_name_capture :
    (∀ (ctx : Context) (s : String) (w : List Char),
       safety_check s = false → name_capture (normalize s) = some w →
       (reply ctx s).2.name = some (pyCapitalize w)) ∧
    (∀ (ctx : Context) (s : String) (n : String),
       ctx.name = some n → safety_check s = false →
       name_capture (normalize s) = none →
       startsList (n ++ ", ").data ((reply ctx s).1).data = true) ∧
    ((reply freshCtx ("i" ++ ap ++ "m anxious")).2.name = some ("Anxious") ∧
     (reply freshCtx ("i" ++ ap ++ "m anxious")).1 =
       "Anxious, " ++ (handle_stress (normalize ("i" ++ ap ++ "m anxious"))).2 ∧
     startsList ("Anxious, ".data)
       ((reply (reply freshCtx ("i" ++ ap ++ "m anxious")).2 ("hello")).1).data =
       true) := by
  refine ⟨?_, ?_, by decide, by decide, by decide⟩
  · intro ctx s w hs hnc
    cases hr : route (normalize s) <;> simp [reply, hs, hnc, hr]
  · intro ctx s n hn hs hnc
    cases hr : route (normalize s) with
    | some kh =>
      simp [reply, hs, hnc, hr, prefix_name, hn]
      simpa using
        startsList_append_self (n.data ++ [',', ' ']) ((kh.2 (normalize s)).2.data)
    | none =>
      simp [reply, hs, hnc, hr, prefix_name, hn]
      simpa using startsList_append_self (n.data ++ [',', ' ']) default_msg.data

theorem C9_pattern_only_name_capture_witness :
    safety_check ("i" ++ ap ++ "m anxious") = false ∧
    name_capture (normalize ("i" ++ ap ++ "m anxious")) =
      some ['a', 'n', 'x', 'i', 'o', 'u', 's'] ∧
    (reply freshCtx ("i" ++ ap ++ "m anxious")).2.name =
      some (pyCapitalize ['a', 'n', 'x', 'i', 'o', 'u', 's']) :=
  ⟨by decide, by decide,
   C9_pattern_only_name_capture.1 freshCtx _ _ (by decide) (by decide)⟩

/-- C10: reply is total on empty and whitespace-only input: the
normalized text is empty, so no risk pattern, no name pattern and no
rule keyword matches, and the call returns the default fallback
(personalized if a name is already stored) with the context
unchanged. -/
theorem C10_blank_input_defaults (ctx : Context) (s : String)
    (h : s.data.all isWs = true) :
    reply ctx s = (prefix_name ctx default_msg, ctx) := by
  have hnorm := normalize_of_all_ws s h
  have hsafe : safety_check s = false := by
    simp only [safety_check, hnorm]
    decide
  have hnc : name_capture (normalize s) = none := by rw [hnorm]; rfl
  have hroute : route (normalize s) = none := by rw [hnorm]; rfl
  simp [reply, hsafe, hnc, hroute]

theorem C10_blank_input_defaults_witness :
    (("  \t ").data.all isWs = true) ∧
    reply freshCtx ("  \t ") = (prefix_name freshCtx default_msg, freshCtx) :=
  ⟨by decide, C10_blank_input_defaults freshCtx ("  \t ") (by decide)⟩

/-! Lemmas for the idempotence of normalize. -/

theorem lowerChar_toNat (c : Char) :
    (lowerChar c).toNat =
      if 65 ≤ c.toNat ∧ c.toNat ≤ 90 then c.toNat + 32 else c.toNat := by
  unfold lowerChar
  split <;> rfl

theorem lowerChar_eq_self {c : Char} (h : ¬(65 ≤ c.toNat ∧ c.toNat ≤ 90)) :
    lowerChar c = c := by
  unfold lowerChar; rw [dif_neg h]

theorem lowerChar_idem (c : Char) : lowerChar (lowerChar c) = lowerChar c := by
  by_cases h : 65 ≤ c.toNat ∧ c.toNat ≤ 90
  · apply lowerChar_eq_self
    rw [lowerChar_toNat, if_pos h]
    omega
  · rw [lowerChar_eq_self h]
    exact lowerChar_eq_self h

theorem isWs_lowerChar (c : Char) : isWs (lowerChar c) = isWs c := by
  simp only [isWs]
  rw [decide_eq_decide, lowerChar_toNat]
  by_cases h : 65 ≤ c.toNat ∧ c.toNat ≤ 90
  · rw [if_pos h]
    constructor <;> intro hx <;> omega
  · rw [if_neg h]

theorem lowerChar_space : lowerChar ' ' = ' ' := by decide

theorem isWs_space : isWs ' ' = true := by decide

theorem noLead_append_left (a b : List Char) (h : a ≠ []) :
    noLeadWs (a ++ b) = noLeadWs a := by
  cases a with
  | nil => exact absurd rfl h
  | cons c cs => rfl

theorem noLead_of_append {a b : List Char} (h : noLeadWs (a ++ b) = true) :
    noLeadWs a = true := by
  cases a with
  | nil => rfl
  | cons c cs => exact h

theorem noTrail_eq_noLead_reverse : ∀ l : List Char,
    noTrailWs l = noLeadWs l.reverse := by
  intro l
  induction l with
  | nil => rfl
  | cons c cs ih =>
    cases cs with
    | nil => rfl
    | cons d ds =>
      have h1 : noTrailWs (c :: d :: ds) = noTrailWs (d :: ds) := rfl
      rw [h1, ih]
      conv_rhs => rw [List.reverse_cons]
      rw [noLead_append_left _ _ (by simp)]

theorem noLead_dropWhile (l : List Char) : noLeadWs (l.dropWhile isWs) = true := by
  induction l with
  | nil => rfl
  | cons c cs ih =>
    cases hc : isWs c with
    | true => simpa [List.dropWhile_cons, hc] using ih
    | false => simp [List.dropWhile_cons, hc, noLeadWs]

theorem dropWhile_fix_of_noLead {l : List Char} (h : noLeadWs l = true) :
    l.dropWhile isWs = l := by
  cases l with
  | nil => rfl
  | cons c cs =>
    have hc : isWs c = false := by simpa [noLeadWs] using h
    simp [List.dropWhile_cons, hc]

theorem exists_append_dropWhile (p : Char → Bool) :
    ∀ l : List Char, ∃ t, t ++ l.dropWhile p = l := by
  intro l
  induction l with
  | nil => exact ⟨[], rfl⟩
  | cons c cs ih =>
    cases hc : p c with
    | true =>
      obtain ⟨t, ht⟩ := ih
      exact ⟨c :: t, by simp [List.dropWhile_cons, hc, ht]⟩
    | false => exact ⟨[], by simp [List.dropWhile_cons, hc]⟩

theorem noLead_stripWs (l : List Char) : noLeadWs (stripWs l) = true := by
  unfold stripWs
  obtain ⟨t, ht⟩ := exists_append_dropWhile isWs (dropWs l).reverse
  have hm : noLeadWs (dropWs l) = true := noLead_dropWhile l
  have h2 : ((dropWs l).reverse.dropWhile isWs).reverse ++ t.reverse = dropWs l := by
    have h3 := congrArg List.reverse ht
    rw [List.reverse_append, List.reverse_reverse] at h3
    exact h3
  rw [← h2] at hm
  exact noLead_of_append hm

theorem noTrail_stripWs (l : List Char) : noTrailWs (stripWs l) = true := by
  rw [noTrail_eq_noLead_reverse]
  unfold stripWs
  rw [List.reverse_reverse]
  exact noLead_dropWhile _

theorem noLead_map_lower (l : List Char) :
    noLeadWs (l.map lowerChar) = noLeadWs l := by
  cases l with
  | nil => rfl
  | cons c cs => simp [List.map_cons, noLeadWs, isWs_lowerChar]

theorem noTrail_map_lower (l : List Char) :
    noTrailWs (l.map lowerChar) = noTrailWs l := by
  rw [noTrail_eq_noLead_reverse, noTrail_eq_noLead_reverse, ← List.map_reverse]
  exact noLead_map_lower _

theorem collapseAux_cons_ws_true {c : Char} {cs : List Char} (hc : isWs c = true) :
    collapseAux true (c :: cs) = collapseAux true cs := by
  simp [collapseAux, hc]

theorem collapseAux_cons_ws_false {c : Char} {cs : List Char} (hc : isWs c = true) :
    collapseAux false (c :: cs) = ' ' :: collapseAux true cs := by
  simp [collapseAux, hc]

theorem collapseAux_cons_nonws {b : Bool} {c : Char} {cs : List Char}
    (hc : isWs c = false) :
    collapseAux b (c :: cs) = c :: collapseAux false cs := by
  simp [collapseAux, hc]

theorem collapsed_cons_ws {b : Bool} {c : Char} {cs : List Char}
    (hc : isWs c = true) :
    collapsed b (c :: cs) = (!b && (c == ' ') && collapsed true cs) := by
  simp [collapsed, hc]

theorem collapsed_cons_nonws {b : Bool} {c : Char} {cs : List Char}
    (hc : isWs c = false) :
    collapsed b (c :: cs) = collapsed false cs := by
  simp [collapsed, hc]

theorem collapsed_collapseAux : ∀ (l : List Char) (b : Bool),
    collapsed b (collapseAux b l) = true := by
  intro l
  induction l with
  | nil => intro b; rfl
  | cons c cs ih =>
    intro b
    cases hc : isWs c with
    | true =>
      cases b with
      | true =>
        rw [collapseAux_cons_ws_true hc]
        exact ih true
      | false =>
        rw [collapseAux_cons_ws_false hc, collapsed_cons_ws isWs_space]
        simp [ih true]
    | false =>
      rw [collapseAux_cons_nonws hc, collapsed_cons_nonws hc]
      exact ih false

theorem collapseAux_fix_of_collapsed : ∀ (l : List Char) (b : Bool),
    collapsed b l = true → collapseAux b l = l := by
  intro l
  induction l with
  | nil => intro b _; rfl
  | cons c cs ih =>
    intro b h
    cases hc : isWs c with
    | true =>
      rw [collapsed_cons_ws hc] at h
      simp only [Bool.and_eq_true, Bool.not_eq_true', beq_iff_eq] at h
      obtain ⟨⟨hb, hsp⟩, hrest⟩ := h
      subst hb
      rw [collapseAux_cons_ws_false hc, ih true hrest, hsp]
    | false =>
      rw [collapsed_cons_nonws hc] at h
      rw [collapseAux_cons_nonws hc, ih false h]

theorem mem_collapseAux : ∀ (l : List Char) (b : Bool) (c : Char),
    c ∈ collapseAux b l → c ∈ l ∨ c = ' ' := by
  intro l
  induction l with
  | nil => intro b c h; simp [collapseAux] at h
  | cons a as ih =>
    intro b c h
    cases ha : isWs a with
    | true =>
      cases b with
      | true =>
        rw [collapseAux_cons_ws_true ha] at h
        rcases ih true c h with h1 | h1
        · exact Or.inl (List.mem_cons_of_mem a h1)
        · exact Or.inr h1
      | false =>
        rw [collapseAux_cons_ws_false ha] at h
        rcases List.mem_cons.mp h with h1 | h1
        · exact Or.inr h1
        · rcases ih true c h1 with h2 | h2
          · exact Or.inl (List.mem_cons_of_mem a h2)
          · exact Or.inr h2
    | false =>
      rw [collapseAux_cons_nonws ha] at h
      rcases List.mem_cons.mp h with h1 | h1
      · exact Or.inl (by simp [h1])
      · rcases ih false c h1 with h2 | h2
        · exact Or.inl (List.mem_cons_of_mem a h2)
        · exact Or.inr h2

theorem map_lower_fix {l : List Char} (h : ∀ c ∈ l, lowerChar c = c) :
    l.map lowerChar = l := by
  induction l with
  | nil => rfl
  | cons c cs ih =>
    simp [List.map_cons, h c (by simp), ih (fun x hx => h x (by simp [hx]))]

theorem noLead_collapseAux {l : List Char} (h : noLeadWs l = true) :
    noLeadWs (collapseAux false l) = true := by
  cases l with
  | nil => rfl
  | cons c cs =>
    have hc : isWs c = false := by simpa [noLeadWs] using h
    rw [collapseAux_cons_nonws hc]
    simp [noLeadWs, hc]

theorem collapseAux_ne_nil : ∀ (l : List Char) (b : Bool),
    noTrailWs l = true → l ≠ [] → collapseAux b l ≠ [] := by
  intro l
  induction l with
  | nil => intro b _ h; exact absurd rfl h
  | cons c cs ih =>
    intro b h _
    cases cs with
    | nil =>
      have hc : isWs c = false := by simpa [noTrailWs] using h
      rw [collapseAux_cons_nonws hc]
      simp
    | cons d ds =>
      have h2 : noTrailWs (d :: ds) = true := h
      cases hc : isWs c with
      | true =>
        cases b with
        | true =>
          rw [collapseAux_cons_ws_true hc]
          exact ih true h2 (by simp)
        | false =>
          rw [collapseAux_cons_ws_false hc]
          simp
      | false =>
        rw [collapseAux_cons_nonws hc]
        simp

theorem noTrail_collapseAux : ∀ (l : List Char) (b : Bool),
    noTrailWs l = true → noTrailWs (collapseAux b l) = true := by
  intro l
  induction l with
  | nil => intro b _; rfl
  | cons c cs ih =>
    intro b h
    cases cs with
    | nil =>
      have hc : isWs c = false := by simpa [noTrailWs] using h
      rw [collapseAux_cons_nonws hc]
      show noTrailWs [c] = true
      simp [noTrailWs, hc]
    | cons d ds =>
      have h2 : noTrailWs (d :: ds) = true := h
      cases hc : isWs c with
      | true =>
        cases b with
        | true =>
          rw [collapseAux_cons_ws_true hc]
          exact ih true h2
        | false =>
          have hne : collapseAux true (d :: ds) ≠ [] :=
            collapseAux_ne_nil (d :: ds) true h2 (by simp)
          rw [collapseAux_cons_ws_false hc]
          cases hx : collapseAux true (d :: ds) with
          | nil => exact absurd hx hne
          | cons y ys =>
            have hTail := ih true h2
            rw [hx] at hTail
            exact hTail
      | false =>
        rw [collapseAux_cons_nonws hc]
        cases hx : collapseAux false (d :: ds) with
        | nil =>
          show noTrailWs [c] = true
          simp [noTrailWs, hc]
        | cons y ys =>
          have hTail := ih false h2
          rw [hx] at hTail
          exact hTail

theorem normalize_fix_of_props (y : List Char)
    (hlead : noLeadWs y = true) (htrail : noTrailWs y = true)
    (hcoll : collapsed false y = true) (hlower : ∀ c ∈ y, lowerChar c = c) :
    normalize (String.mk y) = String.mk y := by
  have hstrip : stripWs y = y := by
    unfold stripWs dropWs
    rw [dropWhile_fix_of_noLead hlead,
        dropWhile_fix_of_noLead (by rw [← noTrail_eq_noLead_reverse]; exact htrail),
        List.reverse_reverse]
  show String.mk (collapseAux false ((stripWs y).map lowerChar)) = String.mk y
  rw [hstrip, map_lower_fix hlower, collapseAux_fix_of_collapsed y false hcoll]

/-- C7: normalize is idempotent: applying it twice gives the same
string as applying it once, for every input string. -/
theorem C7_normalize_idempotent (x : String) :
    normalize (normalize x) = normalize x := by
  have h1 : normalize x = String.mk (collapseAux false ((stripWs x.data).map lowerChar)) := rfl
  rw [h1]
  apply normalize_fix_of_props
  · exact noLead_collapseAux (by rw [noLead_map_lower]; exact noLead_stripWs x.data)
  · exact noTrail_collapseAux _ false
      (by rw [noTrail_map_lower]; exact noTrail_stripWs x.data)
  · exact collapsed_collapseAux _ false
  · intro c hc
    rcases mem_collapseAux _ false c hc with h2 | h2
    · rcases List.mem_map.mp h2 with ⟨a, _, ha⟩
      rw [← ha]
      exact lowerChar_idem a
    · rw [h2]
      exact lowerChar_space

end CalmBot
